import Mathlib

/-!
Verification of the `tcp` package of deltabridge/aw (src/tcp/client.go):
a connection-multiplexing outbound TCP client. The Go code is shallowly
embedded: pure control flow becomes Lean functions, environment effects
(network dials, handshakes, encrypt/decrypt, listener callbacks, the
select races) become explicit oracle inputs, and each embedded function
additionally returns a trace of the observable actions it performed,
in program order.
-/

namespace AW

/-! ## Wire data model (`wire.Message` as used by client.go)

client.go inspects only `Version` (the `wire.V1` case against a default)
and `Type` (the six named constants against a default), and carries
`Data` opaquely, so versions and types are embedded as the named
constants plus a catch-all, and `Data` as an opaque `Nat` token. -/

inductive MsgVersion where
  | V1
  | otherV (n : Nat)
deriving DecidableEq, Repr

inductive MsgType where
  | Ping
  | Push
  | Pull
  | PingAck
  | PushAck
  | PullAck
  | otherT (n : Nat)
deriving DecidableEq, Repr

structure Message where
  version : MsgVersion
  ty : MsgType
  data : Nat
deriving DecidableEq, Repr

/-! ## Connection pool (client.go `Send`, `Close`, `CloseAll`)

The pool `connsByAddr` is a mutex-guarded Go map from address to a
connection handle `{ch, cancel}`; the handle is embedded as an opaque
`Nat` token supplied fresh by the caller of the model (standing for the
`conn` value `runAndKeepAlive` returns), and the map as an association
list whose operations mirror the Go map operations performed under the
mutex. -/

abbrev Pool := List (String × Nat)

/-- `client.connsByAddr[addr]` lookup (`conn, ok := client.connsByAddr[addr]`). -/
def lookupConn : Pool → String → Option Nat
  | [], _ => none
  | (a, h) :: rest, addr => if a = addr then some h else lookupConn rest addr

/-- Errors `Send` can return: `fmt.Errorf("max outbound connections exceeded")`
from the admission check, or `ctx.Err()` from the select race. -/
inductive SendErr where
  | capacityExceeded
  | cancelled
deriving DecidableEq, Repr

/-- The winner of the select race at the end of `Send`
(`case <-ctx.Done()` versus `case conn.ch <- msg`). Which branch
runs is decided by the Go scheduler; it is an oracle input here. -/
inductive RaceWinner where
  | cancelled
  | enqueued
deriving DecidableEq, Repr

/-- Go select semantics for the race in `Send`: a branch can win only if
it is (or becomes) ready. `<-ctx.Done()` is ready iff the context is
cancelled; `conn.ch <- msg` is ready iff the bounded queue has space.
When both are ready, Go chooses uniformly at random, so both winners
are feasible. -/
def raceFeasible (ctxCancelled spaceAvailable : Bool) : RaceWinner → Bool
  | .cancelled => ctxCancelled
  | .enqueued => spaceAvailable

/-- Result of one `Send` call: the returned error (if any), the pool
contents after the call, and whether the message was enqueued into the
supervisor's queue. -/
structure SendResult where
  result : Except SendErr Unit
  pool : Pool
  enqueued : Bool
deriving Repr

/-- The select race at client.go lines 164-169, performed after the
mutex is released: the cancellation branch returns `ctx.Err()` without
enqueueing; the enqueue branch buffers the message and returns nil. -/
def sendSelect (pool : Pool) : RaceWinner → SendResult
  | .cancelled => ⟨Except.error SendErr.cancelled, pool, false⟩
  | .enqueued => ⟨Except.ok (), pool, true⟩

/-- `Client.Send` (client.go lines 141-170). Under the mutex: look up
`addr`; if absent and `len(connsByAddr) >= MaxConnections`, return the
capacity error; if absent and below the cap, start a supervisor
(`runAndKeepAlive`, whose fresh handle is the `newHandle` argument) and
insert its handle; then release the mutex and race cancellation against
the enqueue. -/
def Send (maxConnections : Nat) (pool : Pool) (newHandle : Nat) (addr : String)
    (w : RaceWinner) : SendResult :=
  match lookupConn pool addr with
  | some _ => sendSelect pool w
  | none =>
    if pool.length ≥ maxConnections then
      ⟨Except.error SendErr.capacityExceeded, pool, false⟩
    else
      sendSelect ((addr, newHandle) :: pool) w

/-- `Client.Close` (client.go lines 174-183): under the mutex, if the
address is present, cancel the supervisor and delete the entry;
idempotent. -/
def Close (pool : Pool) (addr : String) : Pool :=
  pool.filter (fun p => p.1 ≠ addr)

/-- `Client.CloseAll` (client.go lines 186-197): cancel every entry and
replace the map with an empty one. -/
def CloseAll (_pool : Pool) : Pool := []

/-! Operation sequences over the pool, for the pool invariants. Each
`send` carries its race-winner oracle; fresh supervisor handles are
drawn from a counter threaded through the fold. -/

inductive PoolOp where
  | send (addr : String) (w : RaceWinner)
  | close (addr : String)
  | closeAll
deriving DecidableEq, Repr

def applyOp (maxConnections : Nat) : Pool × Nat → PoolOp → Pool × Nat
  | (pool, fresh), .send addr w => ((Send maxConnections pool fresh addr w).pool, fresh + 1)
  | (pool, fresh), .close addr => (Close pool addr, fresh)
  | (pool, _fresh), .closeAll => (CloseAll pool, 0)

def applyOps (maxConnections : Nat) (ops : List PoolOp) : Pool × Nat :=
  ops.foldl (applyOp maxConnections) ([], 0)

/-! ## Dial loop (client.go `dial`, lines 418-486)

Each loop iteration consults the environment: whether `dialCtx.Done()`
is ready at the top-of-loop select, and how the attempt turns out
(dial failure, handshake error, nil session, or success). The model
returns the result, the ordered trace of observable actions, and the
final `numDialAttempts` counter. The event list is fuel: a loop still
running when it is exhausted yields `.pendingD`. -/

inductive AttemptOutcome where
  | dialFail
  | handshakeErr
  | handshakeNil
  | okA
deriving DecidableEq, Repr

structure DialEvent where
  ctxDone : Bool
  outcome : AttemptOutcome
deriving DecidableEq, Repr

inductive DAction where
  | attempted (o : AttemptOutcome)
  | waited
  | budgetChecked (n : Nat)
  | closedConn
deriving DecidableEq, Repr

inductive DialRes where
  | ctxErr
  | exhausted
  | okD
  | pendingD
deriving DecidableEq, Repr

/-- The dial loop body with `numDialAttempts` threaded explicitly
(client.go lines 429-485). On a dial failure the loop first waits out
the rest of the inner `TimeToDial` context, then checks
`numDialAttempts >= MaxDialAttempts`; on a handshake error or a nil
session it closes the socket and retries with no wait and no budget
check; on success it returns the connection. -/
def dialAux (maxDialAttempts : Nat) : Nat → List DialEvent → DialRes × List DAction × Nat
  | n, [] => (.pendingD, [], n)
  | n, e :: rest =>
    if e.ctxDone then (.ctxErr, [], n)
    else
      match e.outcome with
      | .dialFail =>
        if n + 1 ≥ maxDialAttempts then
          (.exhausted, [.attempted .dialFail, .waited, .budgetChecked (n + 1)], n + 1)
        else
          let r := dialAux maxDialAttempts (n + 1) rest
          (r.1, .attempted .dialFail :: .waited :: .budgetChecked (n + 1) :: r.2.1, r.2.2)
      | .handshakeErr =>
        let r := dialAux maxDialAttempts (n + 1) rest
        (r.1, .attempted .handshakeErr :: .closedConn :: r.2.1, r.2.2)
      | .handshakeNil =>
        let r := dialAux maxDialAttempts (n + 1) rest
        (r.1, .attempted .handshakeNil :: .closedConn :: r.2.1, r.2.2)
      | .okA => (.okD, [.attempted .okA], n + 1)

/-- `Client.dial`: the loop starts with `numDialAttempts = 0`. -/
def dial (maxDialAttempts : Nat) (events : List DialEvent) : DialRes × List DAction × Nat :=
  dialAux maxDialAttempts 0 events

/-- Checks that every `budgetChecked` action in a dial trace sits
immediately after an `attempted dialFail` followed by a `waited`: the
budget is consulted only on the dial-failure path, and only after the
pacing wait. -/
def budgetWellPlaced : List DAction → Bool
  | [] => true
  | .budgetChecked _ :: _ => false
  | .waited :: .budgetChecked _ :: _ => false
  | .attempted .dialFail :: .waited :: .budgetChecked _ :: rest => budgetWellPlaced rest
  | _ :: rest => budgetWellPlaced rest

/-! ## Framed exchange (client.go `write`, lines 340-414)

The session (`Encrypt`, `Decrypt`, `RemoteSignatory`), the buffered
reader/writer (`Marshal`, `Flush`, `Unmarshal`) and the listener
callbacks are external collaborators; they are supplied as an
environment of oracle functions. Besides the `error` result, `write`
returns the ordered list of environment calls it performed, so that
"decrypt is never invoked on a rejected frame" is a statement about the
trace. -/

inductive Effect where
  | encryptE
  | marshalE
  | flushE
  | unmarshalE
  | decryptE
  | listenerE (t : MsgType)
deriving DecidableEq, Repr

structure WriteEnv where
  encrypt : Nat → Except String Nat
  marshal : Message → Option String
  flush : Option String
  unmarshal : Except String Message
  decrypt : Nat → Except String Nat
  remoteSignatory : Nat
  didReceivePingAck : MsgVersion → Nat → Nat → Option String
  didReceivePushAck : MsgVersion → Nat → Nat → Option String
  didReceivePullAck : MsgVersion → Nat → Nat → Option String

/-- The acknowledgement dispatch at the end of `write` (client.go lines
398-407): by this point the type switch has admitted only ack types. -/
def dispatchAck (env : WriteEnv) (response : Message) : Option String :=
  match response.ty with
  | .PingAck => env.didReceivePingAck response.version response.data env.remoteSignatory
  | .PushAck => env.didReceivePushAck response.version response.data env.remoteSignatory
  | .PullAck => env.didReceivePullAck response.version response.data env.remoteSignatory
  | _ => some "unreachable"

/-- `Client.write`: encrypt the body, marshal and flush the frame, read
a response, check its version (only `wire.V1` is supported), check its
type (acks pass; the request types `Ping`, `Push`, `Pull` and any other
value are rejected), decrypt the body only after both checks, dispatch
to the listener, and surface a listener error as the exchange error. -/
def write (env : WriteEnv) (msg : Message) : Except String Unit × List Effect :=
  match env.encrypt msg.data with
  | .error e => (.error ("encrypting message: " ++ e), [.encryptE])
  | .ok ciphertext =>
    match env.marshal { msg with data := ciphertext } with
    | some e => (.error ("marshaling message: " ++ e), [.encryptE, .marshalE])
    | none =>
      match env.flush with
      | some e => (.error ("flushing message: " ++ e), [.encryptE, .marshalE, .flushE])
      | none =>
        match env.unmarshal with
        | .error e =>
          (.error ("unmarshaling response: " ++ e), [.encryptE, .marshalE, .flushE, .unmarshalE])
        | .ok response =>
          match response.version with
          | .otherV _ =>
            (.error "checking response: unsupported version",
              [.encryptE, .marshalE, .flushE, .unmarshalE])
          | .V1 =>
            match response.ty with
            | .Ping =>
              (.error "checking response: client does not expect request type",
                [.encryptE, .marshalE, .flushE, .unmarshalE])
            | .Push =>
              (.error "checking response: client does not expect request type",
                [.encryptE, .marshalE, .flushE, .unmarshalE])
            | .Pull =>
              (.error "checking response: client does not expect request type",
                [.encryptE, .marshalE, .flushE, .unmarshalE])
            | .otherT _ =>
              (.error "checking response: unsupported type",
                [.encryptE, .marshalE, .flushE, .unmarshalE])
            | _ =>
              match env.decrypt response.data with
              | .error e =>
                (.error ("decrypting response: " ++ e),
                  [.encryptE, .marshalE, .flushE, .unmarshalE, .decryptE])
              | .ok plaintext =>
                match dispatchAck env { response with data := plaintext } with
                | some e =>
                  (.error ("handling response: " ++ e),
                    [.encryptE, .marshalE, .flushE, .unmarshalE, .decryptE,
                      .listenerE response.ty])
                | none =>
                  (.ok (),
                    [.encryptE, .marshalE, .flushE, .unmarshalE, .decryptE,
                      .listenerE response.ty])

/-- The ack types accepted by the response type switch. -/
def isAck : MsgType → Bool
  | .PingAck => true
  | .PushAck => true
  | .PullAck => true
  | _ => false

/-! ## Idle-deadline timer (`time.Timer` as used at client.go 315-318)

A Go timer is `running` while armed, and once it expires a fire signal
sits in its channel until received (`fired`). `Stop` returns false when
the timer already expired or was stopped, and does not clear the
channel; `Reset` re-arms the timer and does not clear the channel
either, so a pending fire survives a bare `Reset` — that is the hazard
the stop-and-drain discipline exists for. -/

structure Timer where
  running : Bool
  fired : Bool
deriving DecidableEq, Repr

/-- `deadline.Stop()`: stops a running unexpired timer and reports
whether it did. -/
def timerStop (t : Timer) : Bool × Timer :=
  match t.running, t.fired with
  | true, false => (true, ⟨false, false⟩)
  | _, _ => (false, t)

/-- `<-deadline.C`: consume the pending fire signal. -/
def timerDrain (t : Timer) : Timer :=
  ⟨t.running, false⟩

/-- `deadline.Reset(ttl)`: re-arm; a pending fire signal is untouched. -/
def timerRearm (t : Timer) : Timer :=
  ⟨true, t.fired⟩

/-- client.go lines 315-318:
`if !deadline.Stop() { <-deadline.C }; deadline.Reset(ttl)`. -/
def stopDrainReset (t : Timer) : Timer :=
  match timerStop t with
  | (true, t2) => timerRearm t2
  | (false, t2) => timerRearm (timerDrain t2)

/-! ## Supervisor run step (client.go `run`, lines 260-338)

`run` dials, resends the saved message if there is one, then loops on a
three-way select: context cancellation, idle-deadline expiry, or a
dequeued message. Each loop iteration consumes one environment event.
The outcome of each framed exchange (`client.write`) is part of the
event, matching the error value the fully modelled `write` above would
return. `run` returns the next `lastMessage`, the error (nil on the
transient paths), and the ordered action trace. -/

inductive RunEvent where
  | ctxDone
  | deadlineFired
  | dequeue (msg : Message) (setDeadlineOk : Bool) (writeErr : Option String)
deriving DecidableEq, Repr

inductive RunErr where
  | connecting (e : String)
  | cancelled
  | ttlExpired
deriving DecidableEq, Repr

inductive RunRet where
  | ret (last : Option Message) (err : Option RunErr)
  | pendingR
deriving DecidableEq, Repr

inductive RAction where
  | resendWrite (m : Message) (ok : Bool)
  | timerStopDrain
  | timerResetA
  | sockSetDeadline
  | exchangeWrite (m : Message) (ok : Bool)
deriving DecidableEq, Repr

/-- The message loop (client.go lines 292-337). On a dequeue it resets
the idle deadline with the stop-and-drain discipline, sets the socket
I/O deadline (a failure there returns `(&msg, nil)`), and performs the
framed exchange (a failure there also returns `(&msg, nil)`); context
cancellation and deadline expiry return nil messages with errors. -/
def runLoop : List RunEvent → RunRet × List RAction
  | [] => (.pendingR, [])
  | .ctxDone :: _ => (.ret none (some .cancelled), [])
  | .deadlineFired :: _ => (.ret none (some .ttlExpired), [])
  | .dequeue msg sdOk wErr :: rest =>
    if !sdOk then
      (.ret (some msg) none, [.timerStopDrain, .timerResetA, .sockSetDeadline])
    else
      match wErr with
      | some _ =>
        (.ret (some msg) none,
          [.timerStopDrain, .timerResetA, .sockSetDeadline, .exchangeWrite msg false])
      | none =>
        let r := runLoop rest
        (r.1, .timerStopDrain :: .timerResetA :: .sockSetDeadline ::
          .exchangeWrite msg true :: r.2)

/-- `Client.run`: dial (an error there is returned upward); if
`lastMessage` is non-nil, perform one framed exchange with it before the
loop, and on failure return `(lastMessage, nil)`; then enter the message
loop. `dialRes` carries the outcome of `client.dial`, and `resendOk`
the outcome of the resend's `client.write`. -/
def run (dialRes : Except String Unit) (lastMessage : Option Message) (resendOk : Bool)
    (events : List RunEvent) : RunRet × List RAction :=
  match dialRes with
  | .error e => (.ret none (some (.connecting e)), [])
  | .ok _ =>
    match lastMessage with
    | some m =>
      if resendOk then
        let r := runLoop events
        (r.1, .resendWrite m true :: r.2)
      else
        (.ret (some m) none, [.resendWrite m false])
    | none => runLoop events

/-- Recognises the resend action in a run trace. -/
def isResend : RAction → Bool
  | .resendWrite _ _ => true
  | _ => false

/-- Checks that every `timerResetA` in a run trace is immediately
preceded by the `timerStopDrain` of lines 315-317. -/
def resetPrecededByStopDrain : List RAction → Bool
  | [] => true
  | .timerResetA :: _ => false
  | .timerStopDrain :: .timerResetA :: rest => resetPrecededByStopDrain rest
  | _ :: rest => resetPrecededByStopDrain rest

/-! ## Concrete fixtures used by witnesses and counterexamples. -/

def addrA : String := "a"

def msg0 : Message := ⟨MsgVersion.V1, MsgType.Ping, 5⟩

/-- An environment whose response frame has an unsupported version
(`otherV 2`): header validation must reject it before decrypting. -/
def envBad : WriteEnv where
  encrypt := fun d => Except.ok d
  marshal := fun _ => none
  flush := none
  unmarshal := Except.ok ⟨MsgVersion.otherV 2, MsgType.PingAck, 0⟩
  decrypt := fun d => Except.ok d
  remoteSignatory := 0
  didReceivePingAck := fun _ _ _ => none
  didReceivePushAck := fun _ _ _ => none
  didReceivePullAck := fun _ _ _ => none

/-- An environment whose exchange succeeds all the way to the listener,
and whose listener returns an error. -/
def envBoom : WriteEnv where
  encrypt := fun d => Except.ok d
  marshal := fun _ => none
  flush := none
  unmarshal := Except.ok ⟨MsgVersion.V1, MsgType.PingAck, 9⟩
  decrypt := fun d => Except.ok d
  remoteSignatory := 0
  didReceivePingAck := fun _ _ _ => some "boom"
  didReceivePushAck := fun _ _ _ => none
  didReceivePullAck := fun _ _ _ => none

/-! ## Helper lemmas -/

/-! Helper lemmas for the pool invariants. -/

lemma lookupConn_eq_none_iff (pool : Pool) (addr : String) :
    lookupConn pool addr = none ↔ addr ∉ pool.map Prod.fst := by
  induction pool with
  | nil => simp [lookupConn]
  | cons p rest ih =>
    obtain ⟨a, h⟩ := p
    by_cases hax : a = addr
    · subst hax
      simp [lookupConn]
    · simp only [lookupConn, if_neg hax, List.map_cons, List.mem_cons, not_or, ih]
      constructor
      · intro hr
        exact ⟨fun he => hax he.symm, hr⟩
      · intro hr
        exact hr.2

/-- The pool after a `Send` is either unchanged, or — only when the
address was absent and the pool strictly below the cap — extended by the
one fresh handle. -/
lemma Send_pool_cases (maxConnections : Nat) (pool : Pool) (newHandle : Nat)
    (addr : String) (w : RaceWinner) :
    (Send maxConnections pool newHandle addr w).pool = pool ∨
      (lookupConn pool addr = none ∧ pool.length < maxConnections ∧
        (Send maxConnections pool newHandle addr w).pool = (addr, newHandle) :: pool) := by
  unfold Send
  cases hl : lookupConn pool addr with
  | some x =>
    left
    cases w <;> rfl
  | none =>
    by_cases hcap : pool.length ≥ maxConnections
    · left
      simp [hcap]
    · right
      refine ⟨rfl, lt_of_not_ge hcap, ?_⟩
      cases w <;> simp [hcap, sendSelect]

/-- The pool keeps at most `maxConnections` entries and at most one
entry per address across any single operation. -/
lemma applyOp_preserves (maxConnections : Nat) (pool : Pool) (fresh : Nat) (op : PoolOp)
    (hlen : pool.length ≤ maxConnections) (hnd : (pool.map Prod.fst).Nodup) :
    (applyOp maxConnections (pool, fresh) op).1.length ≤ maxConnections ∧
      ((applyOp maxConnections (pool, fresh) op).1.map Prod.fst).Nodup := by
  cases op with
  | send addr w =>
    rcases Send_pool_cases maxConnections pool fresh addr w with hsame | ⟨hl, hlt, hext⟩
    · simpa [applyOp, hsame] using ⟨hlen, hnd⟩
    · have hmem : addr ∉ pool.map Prod.fst := (lookupConn_eq_none_iff pool addr).mp hl
      simp only [applyOp, hext, List.length_cons, List.map_cons]
      exact ⟨hlt, List.nodup_cons.mpr ⟨hmem, hnd⟩⟩
  | close addr =>
    constructor
    · exact le_trans (List.length_filter_le _ _) hlen
    · exact hnd.sublist ((List.filter_sublist pool).map Prod.fst)
  | closeAll => simp [applyOp, CloseAll]

lemma applyOps_invariant (maxConnections : Nat) (ops : List PoolOp) (pool : Pool) (fresh : Nat)
    (hlen : pool.length ≤ maxConnections) (hnd : (pool.map Prod.fst).Nodup) :
    (ops.foldl (applyOp maxConnections) (pool, fresh)).1.length ≤ maxConnections ∧
      ((ops.foldl (applyOp maxConnections) (pool, fresh)).1.map Prod.fst).Nodup := by
  induction ops generalizing pool fresh with
  | nil => exact ⟨hlen, hnd⟩
  | cons op rest ih =>
    have h := applyOp_preserves maxConnections pool fresh op hlen hnd
    simpa using ih (applyOp maxConnections (pool, fresh) op).1
      (applyOp maxConnections (pool, fresh) op).2 h.1 h.2

lemma budgetWellPlaced_dialAux (maxDialAttempts : Nat) (n : Nat) (events : List DialEvent) :
    budgetWellPlaced (dialAux maxDialAttempts n events).2.1 = true := by
  induction events generalizing n with
  | nil => rfl
  | cons e rest ih =>
    by_cases hc : e.ctxDone
    · simp [dialAux, hc, budgetWellPlaced]
    · cases ho : e.outcome <;> simp only [dialAux, hc, if_false, ho, Bool.false_eq_true]
      · by_cases hb : n + 1 ≥ maxDialAttempts
        · simp [hb, budgetWellPlaced]
        · simpa [hb, budgetWellPlaced] using ih (n + 1)
      · simpa [budgetWellPlaced] using ih (n + 1)
      · simpa [budgetWellPlaced] using ih (n + 1)
      · simp [budgetWellPlaced]

lemma runLoop_no_resend (events : List RunEvent) :
    (runLoop events).2.countP (fun a => isResend a) = 0 := by
  induction events with
  | nil => rfl
  | cons e rest ih =>
    cases e with
    | ctxDone => rfl
    | deadlineFired => rfl
    | dequeue msg sdOk wErr =>
      cases sdOk with
      | false => simp [runLoop, isResend]
      | true =>
        cases wErr with
        | some e => simp [runLoop, isResend]
        | none => simpa [runLoop, isResend] using ih

lemma resetPrecededByStopDrain_runLoop (events : List RunEvent) :
    resetPrecededByStopDrain (runLoop events).2 = true := by
  induction events with
  | nil => rfl
  | cons e rest ih =>
    cases e with
    | ctxDone => rfl
    | deadlineFired => rfl
    | dequeue msg sdOk wErr =>
      cases sdOk with
      | false => simp [runLoop, resetPrecededByStopDrain]
      | true =>
        cases wErr with
        | some e => simp [runLoop, resetPrecededByStopDrain]
        | none => simpa [runLoop, resetPrecededByStopDrain] using ih

lemma dialAux_zero_eq_one (n : Nat) (events : List DialEvent) :
    dialAux 0 n events = dialAux 1 n events := by
  induction events generalizing n with
  | nil => rfl
  | cons e rest ih =>
    by_cases hc : e.ctxDone
    · simp [dialAux, hc]
    · cases ho : e.outcome with
      | dialFail =>
        have h0 : n + 1 ≥ 0 := Nat.zero_le _
        have h1 : n + 1 ≥ 1 := Nat.succ_le_succ (Nat.zero_le n)
        simp [dialAux, hc, ho, h0, h1]
      | handshakeErr => simp [dialAux, hc, ho, ih]
      | handshakeNil => simp [dialAux, hc, ho, ih]
      | okA => simp [dialAux, hc, ho]

/-! ## Claim theorems -/

/-- C2: for every `send(ctx, addr, msg)`: if `addr` is absent and the
pool already holds at least `max_connections` entries, `Send` returns
the capacity error with the pool unchanged and nothing enqueued; if
`addr` is absent and the pool is below the cap, a supervisor handle is
inserted under `addr`; if `addr` is present, the pool is unchanged
(the existing handle is reused) and `Send` never returns the capacity
error. -/
theorem send_admission (maxConnections : Nat) (pool : Pool) (newHandle : Nat)
    (addr : String) (w : RaceWinner) :
    (lookupConn pool addr = none → pool.length ≥ maxConnections →
      Send maxConnections pool newHandle addr w =
        ⟨Except.error SendErr.capacityExceeded, pool, false⟩)
    ∧ (lookupConn pool addr = none → pool.length < maxConnections →
        (Send maxConnections pool newHandle addr w).pool = (addr, newHandle) :: pool ∧
          lookupConn (Send maxConnections pool newHandle addr w).pool addr = some newHandle)
    ∧ (∀ h, lookupConn pool addr = some h →
        (Send maxConnections pool newHandle addr w).result ≠
            Except.error SendErr.capacityExceeded ∧
          (Send maxConnections pool newHandle addr w).pool = pool) := by
  refine ⟨?_, ?_, ?_⟩
  · intro hl hcap
    simp [Send, hl, hcap]
  · intro hl hcap
    have hnot : ¬ pool.length ≥ maxConnections := not_le.mpr hcap
    cases w <;> simp [Send, hl, hnot, sendSelect, lookupConn]
  · intro h hl
    cases w <;> simp [Send, hl, sendSelect]

theorem send_admission_witness :
    Send 0 [] 7 addrA RaceWinner.enqueued =
        ⟨Except.error SendErr.capacityExceeded, [], false⟩ ∧
      lookupConn (Send 2 [] 7 addrA RaceWinner.enqueued).pool addrA = some 7 ∧
      (Send 2 [(addrA, 3)] 7 addrA RaceWinner.enqueued).pool = [(addrA, 3)] :=
  ⟨(send_admission 0 [] 7 addrA RaceWinner.enqueued).1 rfl (by decide),
    ((send_admission 2 [] 7 addrA RaceWinner.enqueued).2.1 rfl (by decide)).2,
    ((send_admission 2 [(addrA, 3)] 7 addrA RaceWinner.enqueued).2.2 3 (by decide)).2⟩

/-- C3: over every sequence of `send` / `close` / `close_all`
operations starting from the empty pool, the number of pool entries
never exceeds `max_connections`, and the pool never holds two entries
for the same address. -/
theorem pool_invariants (maxConnections : Nat) (ops : List PoolOp) :
    (applyOps maxConnections ops).1.length ≤ maxConnections ∧
      ((applyOps maxConnections ops).1.map Prod.fst).Nodup :=
  applyOps_invariant maxConnections ops [] 0 (Nat.zero_le _) List.nodup_nil

/-- C4 counterexample: a `send` whose context is already cancelled may
still take the enqueue branch of the select when the queue has space
(both branches are ready, and Go chooses between ready branches at
random), so it enqueues the message and returns nil rather than the
cancellation error. -/
theorem send_cancelled_may_enqueue :
    raceFeasible true true RaceWinner.enqueued = true ∧
      (Send 1 [] 0 addrA RaceWinner.enqueued).result = Except.ok () ∧
      (Send 1 [] 0 addrA RaceWinner.enqueued).enqueued = true ∧
      (Send 1 [] 0 addrA RaceWinner.enqueued).result ≠ Except.error SendErr.cancelled := by
  refine ⟨rfl, rfl, rfl, ?_⟩
  intro h
  exact Except.noConfusion h

/-- C4 amended: when the enqueue race resolves to the cancellation
branch, `send` returns the cancellation error and does not enqueue the
message; when the queue is full, the cancellation branch is the only
feasible winner for a cancelled context; and a message is enqueued only
when the enqueue branch wins. (When the context is cancelled but the
queue has space, Go's select may take either branch, so the message may
still be enqueued with a nil return.) -/
theorem send_race_loser_not_enqueued (maxConnections : Nat) (pool : Pool) (newHandle : Nat)
    (addr : String) (ctxCancelled : Bool) (w : RaceWinner) :
    sendSelect pool RaceWinner.cancelled = ⟨Except.error SendErr.cancelled, pool, false⟩ ∧
      (raceFeasible ctxCancelled false w = true → w = RaceWinner.cancelled) ∧
      ((Send maxConnections pool newHandle addr w).enqueued = true →
        w = RaceWinner.enqueued) := by
  refine ⟨rfl, ?_, ?_⟩
  · intro hf
    cases w with
    | cancelled => rfl
    | enqueued => exact absurd hf (by simp [raceFeasible])
  · intro he
    cases w with
    | enqueued => rfl
    | cancelled =>
      exfalso
      revert he
      unfold Send
      cases hl : lookupConn pool addr with
      | some x => simp [sendSelect]
      | none =>
        by_cases hcap : pool.length ≥ maxConnections <;> simp [hcap, sendSelect]

theorem send_race_loser_not_enqueued_witness :
    RaceWinner.cancelled = RaceWinner.cancelled ∧
      RaceWinner.enqueued = RaceWinner.enqueued :=
  ⟨(send_race_loser_not_enqueued 1 [] 0 addrA true RaceWinner.cancelled).2.1 (by decide),
    (send_race_loser_not_enqueued 1 [] 0 addrA true RaceWinner.enqueued).2.2 (by decide)⟩

/-- C10: when the address is fresh and admission succeeds, the
supervisor handle is inserted into the pool before the enqueue race, and
losing the race to cancellation does not roll the insertion back: the
`Send` returns the cancellation error, nothing is enqueued, yet the new
supervisor is live in the pool. -/
theorem send_error_leaves_supervisor (maxConnections : Nat) (pool : Pool) (newHandle : Nat)
    (addr : String) (hl : lookupConn pool addr = none)
    (hcap : pool.length < maxConnections) :
    (Send maxConnections pool newHandle addr RaceWinner.cancelled).result =
        Except.error SendErr.cancelled ∧
      lookupConn (Send maxConnections pool newHandle addr RaceWinner.cancelled).pool addr =
        some newHandle ∧
      (Send maxConnections pool newHandle addr RaceWinner.cancelled).enqueued = false := by
  have hnot : ¬ pool.length ≥ maxConnections := not_le.mpr hcap
  refine ⟨?_, ?_, ?_⟩ <;> simp [Send, hl, hnot, sendSelect, lookupConn]

theorem send_error_leaves_supervisor_witness :
    (Send 1 [] 5 addrA RaceWinner.cancelled).result = Except.error SendErr.cancelled ∧
      lookupConn (Send 1 [] 5 addrA RaceWinner.cancelled).pool addrA = some 5 ∧
      (Send 1 [] 5 addrA RaceWinner.cancelled).enqueued = false :=
  send_error_leaves_supervisor 1 [] 5 addrA rfl (by decide)

/-- C5: the dial loop increments `numDialAttempts` before checking it
against `MaxDialAttempts`, so `max_dial_attempts = 0` and
`max_dial_attempts = 1` produce identical behaviour: the same result,
the same action trace, and the same number of dial attempts, on every
environment. -/
theorem dial_zero_attempts_eq_one (events : List DialEvent) :
    dial 0 events = dial 1 events :=
  dialAux_zero_eq_one 0 events

/-- C8: on every failed dial attempt the loop first waits out the rest
of the `TimeToDial` window, then checks the attempt budget — returning
`DialExhausted` when the count has reached `MaxDialAttempts` and
continuing otherwise — and the budget check occurs only on the
dial-failure path (every `budgetChecked` in the trace is immediately
preceded by the pacing wait of a failed dial attempt). -/
theorem dial_failure_waits_then_checks_budget (maxDialAttempts : Nat)
    (events : List DialEvent) (n : Nat) (rest : List DialEvent) :
    budgetWellPlaced (dial maxDialAttempts events).2.1 = true ∧
      dialAux maxDialAttempts n (⟨false, .dialFail⟩ :: rest) =
        (if n + 1 ≥ maxDialAttempts then
          (.exhausted, [.attempted .dialFail, .waited, .budgetChecked (n + 1)], n + 1)
        else
          ((dialAux maxDialAttempts (n + 1) rest).1,
            .attempted .dialFail :: .waited :: .budgetChecked (n + 1) ::
              (dialAux maxDialAttempts (n + 1) rest).2.1,
            (dialAux maxDialAttempts (n + 1) rest).2.2)) := by
  refine ⟨budgetWellPlaced_dialAux maxDialAttempts 0 events, ?_⟩
  by_cases hb : n + 1 ≥ maxDialAttempts <;> simp [dialAux, hb]

/-- C7: in every framed exchange, a response with an unrecognised
version or a non-ack type is rejected with an error before decryption:
`session.Decrypt` is never invoked on such an exchange. -/
theorem write_rejects_before_decrypt (env : WriteEnv) (msg : Message) (response : Message)
    (hun : env.unmarshal = Except.ok response)
    (hbad : response.version ≠ MsgVersion.V1 ∨ isAck response.ty = false) :
    (∃ e, (write env msg).1 = Except.error e) ∧
      Effect.decryptE ∉ (write env msg).2 := by
  cases henc : env.encrypt msg.data with
  | error e => simp [write, henc]
  | ok ciphertext =>
    cases hmar : env.marshal { msg with data := ciphertext } with
    | some e => simp [write, henc, hmar]
    | none =>
      cases hfl : env.flush with
      | some e => simp [write, henc, hmar, hfl]
      | none =>
        cases hv : response.version with
        | otherV k => simp [write, henc, hmar, hfl, hun, hv]
        | V1 =>
          have hty : isAck response.ty = false := by
            rcases hbad with hbv | hbt
            · exact absurd hv hbv
            · exact hbt
          cases ht : response.ty with
          | Ping => simp [write, henc, hmar, hfl, hun, hv, ht]
          | Push => simp [write, henc, hmar, hfl, hun, hv, ht]
          | Pull => simp [write, henc, hmar, hfl, hun, hv, ht]
          | otherT k => simp [write, henc, hmar, hfl, hun, hv, ht]
          | PingAck =>
            rw [ht] at hty
            simp [isAck] at hty
          | PushAck =>
            rw [ht] at hty
            simp [isAck] at hty
          | PullAck =>
            rw [ht] at hty
            simp [isAck] at hty

theorem write_rejects_before_decrypt_witness :
    (∃ e, (write envBad msg0).1 = Except.error e) ∧
      Effect.decryptE ∉ (write envBad msg0).2 :=
  write_rejects_before_decrypt envBad msg0 ⟨MsgVersion.otherV 2, MsgType.PingAck, 0⟩ rfl
    (Or.inl (by simp))

/-- C6: when `run` is invoked with a non-nil `lastMessage`, the
exchange with that message is the very first action after dial success —
before any queued message is dequeued — and it happens exactly once; if
that exchange fails, `run` returns `(lastMessage, nil)` so the same
message stays the resend candidate. -/
theorem run_resends_last_message_first (m : Message) (events : List RunEvent) :
    run (Except.ok ()) (some m) false events =
        (RunRet.ret (some m) none, [RAction.resendWrite m false]) ∧
      (run (Except.ok ()) (some m) true events).2.head? =
        some (RAction.resendWrite m true) ∧
      (run (Except.ok ()) (some m) true events).2.countP (fun a => isResend a) = 1 := by
  refine ⟨rfl, rfl, ?_⟩
  show (RAction.resendWrite m true :: (runLoop events).2).countP (fun a => isResend a) = 1
  rw [List.countP_cons, runLoop_no_resend events]
  simp [isResend]

/-- C9: on every dequeue, the idle-deadline timer is stopped and — when
it had already fired — drained, before being re-armed: every
`timerResetA` in a run trace is immediately preceded by the
stop-and-drain, and the stop-drain-reset discipline leaves the timer
armed with no pending fire signal, whatever state it was in, so a stale
expiry is never observable after a re-arm. -/
theorem idle_timer_stop_drain_before_reset (dialRes : Except String Unit)
    (lastMessage : Option Message) (resendOk : Bool) (events : List RunEvent) (t : Timer) :
    resetPrecededByStopDrain (run dialRes lastMessage resendOk events).2 = true ∧
      stopDrainReset t = ⟨true, false⟩ := by
  constructor
  · cases dialRes with
    | error e => rfl
    | ok u =>
      cases lastMessage with
      | none => exact resetPrecededByStopDrain_runLoop events
      | some m =>
        cases resendOk with
        | false => rfl
        | true =>
          simpa [run, resetPrecededByStopDrain] using resetPrecededByStopDrain_runLoop events
  · obtain ⟨r, f⟩ := t
    cases r <;> cases f <;> rfl

/-- C1 counterexample: a framed exchange in which the listener returns
an error does produce an exchange error, but the `run` step consumes
it: `run` returns `(msg, nil)` — a nil error with the message preserved
for resend — so the supervisor re-dials instead of retiring. -/
theorem listener_error_not_fatal :
    (write envBoom msg0).1 = Except.error ("handling response: " ++ "boom") ∧
      run (Except.ok ()) none true
          [RunEvent.dequeue msg0 true (some "handling response: boom")] =
        (RunRet.ret (some msg0) none,
          [RAction.timerStopDrain, RAction.timerResetA, RAction.sockSetDeadline,
            RAction.exchangeWrite msg0 false]) :=
  ⟨rfl, rfl⟩

/-- C1 amended: a framed-exchange error — including a listener error,
an unsupported response version or type, and a request type where an
ack was expected — is not fatal for the session: `write` returns the
error, but the `run` step consumes every exchange error, returning
`(msg, nil)` (and `(lastMessage, nil)` on the resend path), so the
supervisor treats it as a transient failure, preserves the message, and
re-dials; no dequeue event ever makes `run` return a non-nil error. -/
theorem exchange_errors_transient (m lastm : Message) (e : String) (sdOk : Bool)
    (wErr : Option String) (rest : List RunEvent) :
    runLoop (RunEvent.dequeue m true (some e) :: rest) =
        (RunRet.ret (some m) none,
          [RAction.timerStopDrain, RAction.timerResetA, RAction.sockSetDeadline,
            RAction.exchangeWrite m false]) ∧
      run (Except.ok ()) (some lastm) false rest =
        (RunRet.ret (some lastm) none, [RAction.resendWrite lastm false]) ∧
      ((runLoop (RunEvent.dequeue m sdOk wErr :: rest)).1 = (runLoop rest).1 ∨
        (runLoop (RunEvent.dequeue m sdOk wErr :: rest)).1 = RunRet.ret (some m) none) := by
  refine ⟨rfl, rfl, ?_⟩
  cases sdOk with
  | false => exact Or.inr rfl
  | true =>
    cases wErr with
    | none => exact Or.inl rfl
    | some e2 => exact Or.inr rfl

end AW
